import Mathlib

/-!
Verification of the `DataPatternScrambler` core in `src/main.py`
(repository `dm-data-pattern-scrambler`).

The Python core applies, per category, `re.sub(pattern, repl, text)`,
where `repl` calls a Faker provider and falls back to the original
matched substring on error.  We embed:

  * a regex AST (`Regex`) covering exactly the constructs the four
    built-in patterns use: character classes, concatenation, ordered
    alternation (Python prefers the left branch), and greedy Kleene
    star.  Greedy `r?` is `alt r eps`, lazy `r??` is `alt eps r`,
    `r{n}` is an `n`-fold concatenation, `r+` is `cat r (star r)` and
    `r{2,}` is `cat r (cat r (star r))`.
  * `Regex.mlist r s`: the list of suffixes `t` such that the engine
    can match a prefix `u` of `s` (with `s = u ++ t`), enumerated in
    Python's backtracking priority order; its head is the match the
    engine commits to.
  * `subNum` / `sub`: Python `re.sub`'s scan — try a match at the
    current position, else copy one character and move on; a committed
    match is replaced via the replacement function and scanning resumes
    after it (an empty match is replaced and the following character is
    copied, as in Python 3.7+).
  * `scramble_text`, `replace_pattern`, `generate_fake_value`: direct
    translations of the methods of `DataPatternScrambler`.  The Faker
    provider is modelled by `gen : String → Nat → Option (List Char)`,
    giving the outcome of the i-th provider call for a category:
    `some v` for a produced value, `none` for a raised exception (the
    code catches it and returns `match.group(0)`).

Python's `\d` and `\s` are modelled by their ASCII meaning
(`Char.isDigit` and the six ASCII whitespace characters); all inputs
in the claims are ASCII, so this agrees with Python on them.
-/

set_option maxRecDepth 20000

namespace Scrambler

/-- Regular expressions, with alternation ordered by priority
(left branch first) as in Python `re`. -/
inductive Regex : Type where
  | eps : Regex
  | cls : (Char → Bool) → Regex
  | alt : Regex → Regex → Regex
  | cat : Regex → Regex → Regex
  | star : Regex → Regex

/-- All ways a greedy star of a regex with match enumeration `m` can
consume a prefix of `s`, in priority order (more iterations first,
the empty iterate last); iterations that consume nothing are not
repeated.  `fuel` bounds the number of iterations; since every
retained iteration strictly shortens the string, `fuel = s.length`
is always enough. -/
def starM (m : List Char → List (List Char)) : Nat → List Char → List (List Char)
  | 0, s => [s]
  | fuel + 1, s =>
      ((m s).filter (fun t => t.length < s.length)).flatMap (starM m fuel) ++ [s]

/-- `r.mlist s` enumerates, in the backtracking engine's priority
order, every suffix `t` of `s` such that `r` matches the prefix `u`
with `s = u ++ t`.  The head of the list is the match Python's engine
commits to at this position. -/
def Regex.mlist : Regex → List Char → List (List Char)
  | .eps, s => [s]
  | .cls p, s =>
      match s with
      | [] => []
      | c :: t => if p c then [t] else []
  | .alt r₁ r₂, s => r₁.mlist s ++ r₂.mlist s
  | .cat r₁ r₂, s => (r₁.mlist s).flatMap (fun t => r₂.mlist t)
  | .star r, s => starM (fun t => r.mlist t) s.length s

/-- Python `\s` restricted to ASCII: space, tab, newline, carriage
return, vertical tab, form feed. -/
def isPySpace (c : Char) : Bool :=
  c == ' ' || c == '\t' || c == '\n' || c == '\r' || c == '\x0b' || c == '\x0c'

/-- A literal character. -/
def chr (c : Char) : Regex := .cls (fun x => x == c)

/-- Python `\d` (ASCII): `[0-9]`. -/
def digit : Regex := .cls (fun c => c.isDigit)

/-- The class `[-\.\s]` used as a separator in the phone pattern. -/
def sepCls : Regex := .cls (fun c => c == '-' || c == '.' || isPySpace c)

/-- Greedy `r?`: prefer the present branch. -/
def optGreedy (r : Regex) : Regex := .alt r .eps

/-- Lazy `r??`: prefer the empty branch. -/
def optLazy (r : Regex) : Regex := .alt .eps r

/-- `r{n}`: an `n`-fold concatenation. -/
def rep (r : Regex) : Nat → Regex
  | 0 => .eps
  | n + 1 => .cat r (rep r n)

/-- `r+` = `r r*` (greedy). -/
def plus (r : Regex) : Regex := .cat r (.star r)

/-- A literal string. -/
def strR (s : String) : Regex :=
  s.toList.foldr (fun c acc => .cat (chr c) acc) .eps

/-- `src/main.py` line 26, first alternative:
`\d{3}[-\.\s]??\d{3}[-\.\s]??\d{4}`. -/
def phoneAlt1 : Regex :=
  .cat (rep digit 3) (.cat (optLazy sepCls)
    (.cat (rep digit 3) (.cat (optLazy sepCls) (rep digit 4))))

/-- `src/main.py` line 26, second alternative:
`\(\d{3}\)\s*\d{3}[-\.\s]??\d{4}`. -/
def phoneAlt2 : Regex :=
  .cat (chr '(') (.cat (rep digit 3) (.cat (chr ')')
    (.cat (.star (.cls isPySpace))
      (.cat (rep digit 3) (.cat (optLazy sepCls) (rep digit 4))))))

/-- `src/main.py` line 26, third alternative: `\d{3}[-\.\s]??\d{4}`. -/
def phoneAlt3 : Regex :=
  .cat (rep digit 3) (.cat (optLazy sepCls) (rep digit 4))

/-- The `phone_number` pattern of `src/main.py` line 26. -/
def phonePattern : Regex := .alt phoneAlt1 (.alt phoneAlt2 phoneAlt3)

/-- The `credit_card` pattern of `src/main.py` line 27:
`4[0-9]{12}(?:[0-9]{3})?` (Visa) `|5[1-5][0-9]{14}` (MasterCard)
`|6(?:011|5[0-9]{2})[0-9]{12}` (Discover) `|3[47][0-9]{13}` (Amex)
`|3(?:0[0-5]|[68][0-9])[0-9]{11}` (Diners)
`|(?:2131|1800|35\d{3})\d{11}` (JCB). -/
def creditCardPattern : Regex :=
  .alt (.cat (chr '4') (.cat (rep digit 12) (optGreedy (rep digit 3))))
    (.alt (.cat (chr '5') (.cat (.cls (fun c => '1' ≤ c && c ≤ '5')) (rep digit 14)))
      (.alt (.cat (chr '6') (.cat (.alt (strR "011") (.cat (chr '5') (rep digit 2)))
          (rep digit 12)))
        (.alt (.cat (chr '3') (.cat (.cls (fun c => c == '4' || c == '7')) (rep digit 13)))
          (.alt (.cat (chr '3') (.cat (.alt (.cat (chr '0') (.cls (fun c => '0' ≤ c && c ≤ '5')))
                (.cat (.cls (fun c => c == '6' || c == '8')) digit))
              (rep digit 11)))
            (.cat (.alt (strR "2131") (.alt (strR "1800") (.cat (strR "35") (rep digit 3))))
              (rep digit 11))))))

/-- Class `[a-zA-Z0-9._%+-]` (local part of the email pattern). -/
def emailLocalChar (c : Char) : Bool :=
  c.isAlpha || c.isDigit || c == '.' || c == '_' || c == '%' || c == '+' || c == '-'

/-- Class `[a-zA-Z0-9.-]` (domain part of the email pattern). -/
def emailDomainChar (c : Char) : Bool :=
  c.isAlpha || c.isDigit || c == '.' || c == '-'

/-- The `email` pattern of `src/main.py` line 28:
`[a-zA-Z0-9._%+-]+@[a-zA-Z0-9.-]+\.[a-zA-Z]{2,}`. -/
def emailPattern : Regex :=
  .cat (plus (.cls emailLocalChar))
    (.cat (chr '@')
      (.cat (plus (.cls emailDomainChar))
        (.cat (chr '.')
          (.cat (.cls (fun c => c.isAlpha))
            (.cat (.cls (fun c => c.isAlpha)) (.star (.cls (fun c => c.isAlpha))))))))

/-- One octet `(25[0-5]|2[0-4][0-9]|[01]?[0-9][0-9]?)` of the
`ip_address` pattern. -/
def ipOctet : Regex :=
  .alt (.cat (strR "25") (.cls (fun c => '0' ≤ c && c ≤ '5')))
    (.alt (.cat (chr '2') (.cat (.cls (fun c => '0' ≤ c && c ≤ '4')) digit))
      (.cat (optGreedy (.cls (fun c => c == '0' || c == '1')))
        (.cat digit (optGreedy digit))))

/-- The `ip_address` pattern of `src/main.py` line 29:
`((25[0-5]|2[0-4][0-9]|[01]?[0-9][0-9]?)\.){3}(25[0-5]|...)`. -/
def ipPattern : Regex :=
  .cat (rep (.cat ipOctet (chr '.')) 3) ipOctet

/-- The `self.patterns` dict of `src/main.py` lines 25–30, in its
insertion order (Python dicts preserve insertion order). -/
def patternsList : List (String × Regex) :=
  [("phone_number", phonePattern), ("credit_card", creditCardPattern),
   ("email", emailPattern), ("ip_address", ipPattern)]

/-- `self.patterns.keys()` — the default category order. -/
def patternsKeys : List String := patternsList.map (fun p => p.1)

/-- Dict lookup `self.patterns[name]`, `none` when
`name not in self.patterns`. -/
def lookupPattern (name : String) : Option Regex :=
  (patternsList.find? (fun p => p.1 == name)).map (fun p => p.2)

/-- One step of Python `re.sub`'s scan, with `fuel ≥ s.length + 1`:
at the current position, commit to the engine's first match if any
(replacing it via `repl` with the running match index, and copying one
character after an empty match, as Python 3.7+ does); otherwise copy
one character and rescan. -/
def subNum (r : Regex) (repl : Nat → List Char → List Char) :
    Nat → Nat → List Char → List Char
  | 0, _, s => s
  | fuel + 1, i, s =>
      match (r.mlist s).head? with
      | some rest =>
          let n := s.length - rest.length
          if n = 0 then
            match s with
            | [] => repl i []
            | c :: s' => repl i [] ++ c :: subNum r repl fuel (i + 1) s'
          else
            repl i (s.take n) ++ subNum r repl fuel (i + 1) (s.drop n)
      | none =>
          match s with
          | [] => []
          | c :: s' => c :: subNum r repl fuel i s'

/-- `re.sub(pattern, repl, text)` of `src/main.py` line 69. -/
def sub (r : Regex) (repl : Nat → List Char → List Char) (s : List Char) : List Char :=
  subNum r repl (s.length + 1) 0 s

/-- `DataPatternScrambler.generate_fake_value` (lines 75–100): the
i-th provider call for `name` either yields a value (`some v`,
inserted verbatim) or raises (`none`, caught: the original matched
substring `matched` is returned). -/
def generate_fake_value (gen : String → Nat → Option (List Char))
    (name : String) (i : Nat) (matched : List Char) : List Char :=
  match gen name i with
  | some v => v
  | none => matched

/-- `DataPatternScrambler.replace_pattern` (lines 56–73).  The
`re.error` handler on line 71 is dead for the four fixed, valid
patterns, so no error branch is modelled. -/
def replace_pattern (gen : String → Nat → Option (List Char))
    (text : List Char) (r : Regex) (name : String) : List Char :=
  sub r (generate_fake_value gen name) text

/-- The body of the loop of `scramble_text` (lines 46–52): an unknown
name is skipped after a logged warning (lines 47–49), a known one is
substituted over the current text (lines 51–52). -/
def scramble_step (gen : String → Nat → Option (List Char))
    (t : List Char) (name : String) : List Char :=
  match lookupPattern name with
  | none => t
  | some r => replace_pattern gen t r name

/-- `DataPatternScrambler.scramble_text` (lines 32–54): default the
category list to `self.patterns.keys()` when it is `None` (lines
43–44), then fold the loop body over it. -/
def scramble_text (gen : String → Nat → Option (List Char))
    (text : List Char) (pattern_names : Option (List String)) : List Char :=
  (pattern_names.getD patternsKeys).foldl (scramble_step gen) text

/-- Does `r` match some prefix of `s` (possibly empty)? -/
def matchesHere (r : Regex) (s : List Char) : Bool :=
  !(r.mlist s).isEmpty

/-- Does `r` match some contiguous substring of `s`? -/
def hasMatch (r : Regex) (s : List Char) : Bool :=
  (List.range (s.length + 1)).any (fun i => matchesHere r (s.drop i))

/-- Reassemble a gap/match decomposition into the original text. -/
def joinPieces : List (List Char × List Char) → List Char → List Char
  | [], tail => tail
  | (g, m) :: rest, tail => g ++ m ++ joinPieces rest tail

/-- Reassemble a gap/match decomposition with each match replaced via
`repl` at its running index. -/
def applyPieces (repl : Nat → List Char → List Char) :
    Nat → List (List Char × List Char) → List Char → List Char
  | _, [], tail => tail
  | i, (g, m) :: rest, tail => g ++ repl i m ++ applyPieces repl (i + 1) rest tail

/-- Absorb one copied character into the front gap of a decomposition
(or into the tail when there are no pieces). -/
def prependGap (c : Char) : List (List Char × List Char) → List Char →
    List (List Char × List Char) × List Char
  | [], tail => ([], c :: tail)
  | (g, m) :: rest, tail => ((c :: g, m) :: rest, tail)

/-! ### Basic lemmas about the match enumeration -/

theorem flatMap_congr_mem {α β : Type} {l : List α} {f g : α → List β}
    (h : ∀ a ∈ l, f a = g a) : l.flatMap f = l.flatMap g := by
  induction l with
  | nil => rfl
  | cons x xs ih =>
      simp only [List.flatMap_cons]
      rw [h x (List.mem_cons_self x xs), ih (fun a ha => h a (List.mem_cons_of_mem x ha))]

theorem starM_mem_self (m : List Char → List (List Char)) :
    ∀ (fuel : Nat) (s : List Char), s ∈ starM m fuel s := by
  intro fuel s
  cases fuel with
  | zero => simp [starM]
  | succ f => simp [starM]

theorem starM_irrel (m : List Char → List (List Char)) :
    ∀ (fuel₁ fuel₂ : Nat) (s : List Char), s.length ≤ fuel₁ → s.length ≤ fuel₂ →
      starM m fuel₁ s = starM m fuel₂ s := by
  intro fuel₁
  induction fuel₁ with
  | zero =>
      intro fuel₂ s h₁ h₂
      have hs : s = [] := List.eq_nil_of_length_eq_zero (Nat.le_zero.mp h₁)
      subst hs
      cases fuel₂ with
      | zero => rfl
      | succ g =>
          simp only [starM]
          rw [List.filter_eq_nil_iff.mpr (by intro a _; simp)]
          simp
  | succ f ih =>
      intro fuel₂ s h₁ h₂
      cases fuel₂ with
      | zero =>
          have hs : s = [] := List.eq_nil_of_length_eq_zero (Nat.le_zero.mp h₂)
          subst hs
          simp only [starM]
          rw [List.filter_eq_nil_iff.mpr (by intro a _; simp)]
          simp
      | succ g =>
          simp only [starM]
          congr 1
          apply flatMap_congr_mem
          intro t ht
          have htl : t.length < s.length := by
            have := (List.mem_filter.mp ht).2
            simpa using this
          exact ih g t (by omega) (by omega)

theorem starM_ext (m : List Char → List (List Char))
    (hm : ∀ (s t v : List Char), t ∈ m s → t ++ v ∈ m (s ++ v)) :
    ∀ (fuel fuel' : Nat) (s t v : List Char), s.length ≤ fuel →
      (s ++ v).length ≤ fuel' → t ∈ starM m fuel s →
      t ++ v ∈ starM m fuel' (s ++ v) := by
  intro fuel
  induction fuel with
  | zero =>
      intro fuel' s t v h₁ _ ht
      have hs : s = [] := List.eq_nil_of_length_eq_zero (Nat.le_zero.mp h₁)
      subst hs
      simp only [starM, List.mem_singleton] at ht
      subst ht
      simpa using starM_mem_self m fuel' v
  | succ f ih =>
      intro fuel' s t v h₁ h₂ ht
      simp only [starM, List.mem_append, List.mem_flatMap, List.mem_filter,
        List.mem_singleton] at ht
      rcases ht with ⟨t', ⟨ht'm, ht'l⟩, htt'⟩ | rfl
      · have ht'l' : t'.length < s.length := by simpa using ht'l
        have hslen : 1 ≤ s.length := by omega
        have hfl : 1 ≤ (s ++ v).length := by
          rw [List.length_append]; omega
        obtain ⟨g, rfl⟩ : ∃ g, fuel' = g + 1 := ⟨fuel' - 1, by omega⟩
        simp only [starM, List.mem_append, List.mem_flatMap, List.mem_filter]
        refine Or.inl ⟨t' ++ v, ⟨hm s t' v ht'm, ?_⟩, ?_⟩
        · simp only [List.length_append, decide_eq_true_eq]
          omega
        · exact ih g t' t v (by omega) (by rw [List.length_append] at h₂ ⊢; omega) htt'
      · exact starM_mem_self m fuel' _

theorem mlist_ext (r : Regex) :
    ∀ (s t v : List Char), t ∈ r.mlist s → t ++ v ∈ r.mlist (s ++ v) := by
  induction r with
  | eps =>
      intro s t v ht
      simp only [Regex.mlist, List.mem_singleton] at ht
      subst ht
      simp [Regex.mlist]
  | cls p =>
      intro s t v ht
      cases s with
      | nil => simp [Regex.mlist] at ht
      | cons c s' =>
          simp only [Regex.mlist] at ht
          by_cases hpc : p c
          · simp only [hpc, if_true, List.mem_singleton] at ht
            subst ht
            simp [Regex.mlist, hpc]
          · simp [hpc] at ht
  | alt r₁ r₂ ih₁ ih₂ =>
      intro s t v ht
      simp only [Regex.mlist, List.mem_append] at ht ⊢
      rcases ht with h | h
      · exact Or.inl (ih₁ s t v h)
      · exact Or.inr (ih₂ s t v h)
  | cat r₁ r₂ ih₁ ih₂ =>
      intro s t v ht
      simp only [Regex.mlist, List.mem_flatMap] at ht ⊢
      rcases ht with ⟨t', ht', htt'⟩
      exact ⟨t' ++ v, ih₁ s t' v ht', ih₂ t' t v htt'⟩
  | star r ih =>
      intro s t v ht
      simp only [Regex.mlist] at ht ⊢
      exact starM_ext (fun u => r.mlist u) ih s.length (s ++ v).length s t v
        (le_refl _) (le_refl _) ht

theorem starM_sound (m : List Char → List (List Char))
    (hms : ∀ (s t : List Char), t ∈ m s → ∃ u, u ++ t = s ∧ [] ∈ m u)
    (hme : ∀ (s t v : List Char), t ∈ m s → t ++ v ∈ m (s ++ v)) :
    ∀ (fuel : Nat) (s t : List Char), s.length ≤ fuel → t ∈ starM m fuel s →
      ∃ u, u ++ t = s ∧ [] ∈ starM m u.length u := by
  intro fuel
  induction fuel with
  | zero =>
      intro s t h₁ ht
      have hs : s = [] := List.eq_nil_of_length_eq_zero (Nat.le_zero.mp h₁)
      subst hs
      simp only [starM, List.mem_singleton] at ht
      subst ht
      exact ⟨[], rfl, by simp [starM]⟩
  | succ f ih =>
      intro s t h₁ ht
      simp only [starM, List.mem_append, List.mem_flatMap, List.mem_filter,
        List.mem_singleton] at ht
      rcases ht with ⟨t', ⟨ht'm, ht'l⟩, htt'⟩ | rfl
      · have ht'l' : t'.length < s.length := by simpa using ht'l
        obtain ⟨u₁, hu₁, hl₁⟩ := hms s t' ht'm
        obtain ⟨u₂, hu₂, hl₂⟩ := ih t' t (by omega) htt'
        refine ⟨u₁ ++ u₂, by rw [List.append_assoc, hu₂, hu₁], ?_⟩
        have hu₁ne : 1 ≤ u₁.length := by
          rcases u₁ with _ | ⟨a, b⟩
          · simp only [List.nil_append] at hu₁
            subst hu₁
            omega
          · simp
        obtain ⟨k, hk⟩ : ∃ k, (u₁ ++ u₂).length = k + 1 :=
          ⟨(u₁ ++ u₂).length - 1, by rw [List.length_append]; omega⟩
        rw [hk]
        simp only [starM, List.mem_append, List.mem_flatMap, List.mem_filter]
        refine Or.inl ⟨u₂, ⟨?_, ?_⟩, ?_⟩
        · have := hme u₁ [] u₂ hl₁
          simpa using this
        · simp only [decide_eq_true_eq]
          rw [List.length_append] at hk ⊢
          omega
        · rw [starM_irrel m u₂.length k u₂ (le_refl _)
            (by rw [List.length_append] at hk; omega)] at hl₂
          exact hl₂
      · exact ⟨[], rfl, by simp [starM]⟩

theorem mlist_sound (r : Regex) :
    ∀ (s t : List Char), t ∈ r.mlist s → ∃ u, u ++ t = s ∧ [] ∈ r.mlist u := by
  induction r with
  | eps =>
      intro s t ht
      simp only [Regex.mlist, List.mem_singleton] at ht
      subst ht
      exact ⟨[], rfl, by simp [Regex.mlist]⟩
  | cls p =>
      intro s t ht
      cases s with
      | nil => simp [Regex.mlist] at ht
      | cons c s' =>
          simp only [Regex.mlist] at ht
          by_cases hpc : p c
          · simp only [hpc, if_true, List.mem_singleton] at ht
            subst ht
            exact ⟨[c], rfl, by simp [Regex.mlist, hpc]⟩
          · simp [hpc] at ht
  | alt r₁ r₂ ih₁ ih₂ =>
      intro s t ht
      simp only [Regex.mlist, List.mem_append] at ht
      rcases ht with h | h
      · obtain ⟨u, hu, hl⟩ := ih₁ s t h
        exact ⟨u, hu, by simp [Regex.mlist, List.mem_append]; exact Or.inl hl⟩
      · obtain ⟨u, hu, hl⟩ := ih₂ s t h
        exact ⟨u, hu, by simp [Regex.mlist, List.mem_append]; exact Or.inr hl⟩
  | cat r₁ r₂ ih₁ ih₂ =>
      intro s t ht
      simp only [Regex.mlist, List.mem_flatMap] at ht
      rcases ht with ⟨t', ht', htt'⟩
      obtain ⟨u₁, hu₁, hl₁⟩ := ih₁ s t' ht'
      obtain ⟨u₂, hu₂, hl₂⟩ := ih₂ t' t htt'
      refine ⟨u₁ ++ u₂, by rw [List.append_assoc, hu₂, hu₁], ?_⟩
      simp only [Regex.mlist, List.mem_flatMap]
      refine ⟨u₂, ?_, hl₂⟩
      have := mlist_ext r₁ u₁ [] u₂ hl₁
      simpa using this
  | star r ih =>
      intro s t ht
      simp only [Regex.mlist] at ht ⊢
      exact starM_sound (fun u => r.mlist u) ih (mlist_ext r) s.length s t (le_refl _) ht

/-- Matches of `cat` compose from matches of the parts. -/
theorem lang_cat {r₁ r₂ : Regex} {u v : List Char}
    (h₁ : [] ∈ r₁.mlist u) (h₂ : [] ∈ r₂.mlist v) :
    [] ∈ (Regex.cat r₁ r₂).mlist (u ++ v) := by
  simp only [Regex.mlist, List.mem_flatMap]
  refine ⟨v, ?_, h₂⟩
  have := mlist_ext r₁ u [] v h₁
  simpa using this

/-! ### Substring matching -/

theorem matchesHere_iff {r : Regex} {s : List Char} :
    matchesHere r s = true ↔ r.mlist s ≠ [] := by
  simp [matchesHere, List.isEmpty_iff]

/-- `hasMatch r s` is exactly "some contiguous substring of `s` is
matched by `r`". -/
theorem hasMatch_iff (r : Regex) (s : List Char) :
    hasMatch r s = true ↔ ∃ u, u <:+: s ∧ [] ∈ r.mlist u := by
  constructor
  · intro h
    simp only [hasMatch, List.any_eq_true, List.mem_range] at h
    obtain ⟨i, _, hi⟩ := h
    obtain ⟨t, ht⟩ := List.exists_mem_of_ne_nil _ (matchesHere_iff.mp hi)
    obtain ⟨u, hu, hl⟩ := mlist_sound r _ t ht
    refine ⟨u, ⟨s.take i, t, ?_⟩, hl⟩
    rw [List.append_assoc, hu, List.take_append_drop]
  · rintro ⟨u, ⟨a, b, hab⟩, hl⟩
    simp only [hasMatch, List.any_eq_true, List.mem_range]
    refine ⟨a.length, ?_, ?_⟩
    · have : a.length + (u.length + b.length) = s.length := by
        rw [← hab]; simp [List.length_append]
      omega
    · rw [matchesHere_iff]
      intro hnil
      have hb : b ∈ r.mlist (s.drop a.length) := by
        have h₁ : s.drop a.length = u ++ b := by
          rw [← hab, List.append_assoc, List.drop_left]
        rw [h₁]
        have := mlist_ext r u [] b hl
        simpa using this
      rw [hnil] at hb
      simp at hb

theorem hasMatch_cons (r : Regex) (c : Char) (s : List Char) :
    hasMatch r (c :: s) = (matchesHere r (c :: s) || hasMatch r s) := by
  simp only [hasMatch, List.length_cons, List.range_succ_eq_map, List.any_cons,
    List.any_map, List.drop_zero]
  rfl

/-! ### `re.sub` leaves text without matches unchanged -/

theorem subNum_no_match (r : Regex) (repl : Nat → List Char → List Char) :
    ∀ (fuel : Nat) (i : Nat) (s : List Char), s.length + 1 ≤ fuel →
      hasMatch r s = false → subNum r repl fuel i s = s := by
  intro fuel
  induction fuel with
  | zero => intro i s h₁ _; omega
  | succ f ih =>
      intro i s h₁ h₂
      have h0 : matchesHere r s = false := by
        cases s with
        | nil => simpa [hasMatch] using h₂
        | cons c s' =>
            rw [hasMatch_cons] at h₂
            exact (Bool.or_eq_false_iff.mp h₂).1
      have hnil : r.mlist s = [] := by
        by_cases h : r.mlist s = []
        · exact h
        · rw [matchesHere_iff.mpr h] at h0; cases h0
      cases s with
      | nil => simp [subNum, hnil]
      | cons c s' =>
          have h₂' : hasMatch r s' = false := by
            rw [hasMatch_cons] at h₂
            exact (Bool.or_eq_false_iff.mp h₂).2
          simp only [subNum, hnil, List.head?_nil]
          rw [ih i s' (by simpa using Nat.lt_of_succ_le h₁) h₂']

theorem sub_no_match {r : Regex} {s : List Char}
    (repl : Nat → List Char → List Char) (h : hasMatch r s = false) :
    sub r repl s = s :=
  subNum_no_match r repl (s.length + 1) 0 s (le_refl _) h

/-- If no name in the list has a pattern with a match in `T`, the whole
fold over the category list leaves `T` unchanged. -/
theorem foldl_no_match (gen : String → Nat → Option (List Char)) :
    ∀ (names : List String) (T : List Char),
      (∀ n ∈ names, ∀ rg, lookupPattern n = some rg → hasMatch rg T = false) →
      names.foldl (scramble_step gen) T = T := by
  intro names
  induction names with
  | nil => intro T _; rfl
  | cons n ns ih =>
      intro T h
      have hstep : scramble_step gen T n = T := by
        unfold scramble_step
        cases hl : lookupPattern n with
        | none => rfl
        | some rg =>
            exact sub_no_match _ (h n (List.mem_cons_self n ns) rg hl)
      simp only [List.foldl_cons, hstep]
      exact ih T (fun n' hn' rg hrg => h n' (List.mem_cons_of_mem n hn') rg hrg)

/-! ### The gap/match decomposition produced by `re.sub` -/

theorem joinPieces_prependGap (c : Char)
    (ps : List (List Char × List Char)) (tail : List Char) :
    joinPieces (prependGap c ps tail).1 (prependGap c ps tail).2 =
      c :: joinPieces ps tail := by
  cases ps with
  | nil => rfl
  | cons p rest => cases p; rfl

theorem applyPieces_prependGap (repl : Nat → List Char → List Char) (i : Nat)
    (c : Char) (ps : List (List Char × List Char)) (tail : List Char) :
    applyPieces repl i (prependGap c ps tail).1 (prependGap c ps tail).2 =
      c :: applyPieces repl i ps tail := by
  cases ps with
  | nil => rfl
  | cons p rest => cases p; rfl

theorem prependGap_matches (c : Char)
    (ps : List (List Char × List Char)) (tail : List Char) :
    ((prependGap c ps tail).1).map (fun p => p.2) = ps.map (fun p => p.2) := by
  cases ps with
  | nil => rfl
  | cons p rest => cases p; rfl

/-- Every run of the `re.sub` scan decomposes its input into
alternating untouched gaps and matched spans, in order: the input is
the in-order concatenation `g₀ ++ m₀ ++ g₁ ++ m₁ ++ … ++ tail`, the
output is the same with each matched span `mⱼ` replaced by
`repl j mⱼ`, and every matched span is matched by the pattern. -/
theorem subNum_decomp (r : Regex) (repl : Nat → List Char → List Char) :
    ∀ (fuel i : Nat) (s : List Char), s.length + 1 ≤ fuel →
      ∃ ps tail, joinPieces ps tail = s ∧
        subNum r repl fuel i s = applyPieces repl i ps tail ∧
        ∀ p ∈ ps, [] ∈ r.mlist p.2 := by
  intro fuel
  induction fuel with
  | zero => intro i s h₁; omega
  | succ f ih =>
      intro i s h₁
      cases hh : (r.mlist s).head? with
      | none =>
          cases s with
          | nil =>
              exact ⟨[], [], rfl, by simp [subNum, hh, joinPieces, applyPieces], by simp⟩
          | cons c s' =>
              obtain ⟨ps', tail', hj, hs, hm⟩ := ih i s' (by simpa using Nat.lt_of_succ_le h₁)
              refine ⟨(prependGap c ps' tail').1, (prependGap c ps' tail').2, ?_, ?_, ?_⟩
              · rw [joinPieces_prependGap, hj]
              · simp only [subNum, hh]
                rw [hs, applyPieces_prependGap]
              · intro p hp
                have hp2 : p.2 ∈ ps'.map (fun q => q.2) := by
                  rw [← prependGap_matches c ps' tail']
                  exact List.mem_map_of_mem _ hp
                obtain ⟨q, hq, hq2⟩ := List.mem_map.mp hp2
                rw [← hq2]
                exact hm q hq
      | some rest =>
          have hmem : rest ∈ r.mlist s := by
            apply List.mem_of_mem_head?
            rw [hh]
            rfl
          obtain ⟨u, hu, hlang⟩ := mlist_sound r s rest hmem
          have hlen : u.length + rest.length = s.length := by
            rw [← hu, List.length_append]
          have hn : s.length - rest.length = u.length := by omega
          have htake : s.take (s.length - rest.length) = u := by
            rw [hn, ← hu, List.take_left]
          have hdrop : s.drop (s.length - rest.length) = rest := by
            rw [hn, ← hu, List.drop_left]
          by_cases hz : s.length - rest.length = 0
          · have huz : u = [] := by
              have : u.length = 0 := by omega
              exact List.eq_nil_of_length_eq_zero this
            subst huz
            simp only [List.nil_append] at hu
            cases s with
            | nil =>
                refine ⟨[([], [])], [], rfl, ?_, ?_⟩
                · simp only [subNum, hh]
                  rw [if_pos hz]
                  simp [applyPieces, joinPieces]
                · intro p hp
                  simp only [List.mem_singleton] at hp
                  subst hp
                  exact hlang
            | cons c s' =>
                obtain ⟨ps', tail', hj, hs, hm⟩ :=
                  ih (i + 1) s' (by simpa using Nat.lt_of_succ_le h₁)
                refine ⟨([], []) :: (prependGap c ps' tail').1,
                  (prependGap c ps' tail').2, ?_, ?_, ?_⟩
                · simp only [joinPieces, List.nil_append]
                  rw [joinPieces_prependGap, hj]
                · simp only [subNum, hh]
                  rw [if_pos hz]
                  simp only [applyPieces, List.nil_append]
                  rw [hs, applyPieces_prependGap]
                · intro p hp
                  rcases List.mem_cons.mp hp with hp | hp
                  · subst hp; exact hlang
                  · have hp2 : p.2 ∈ ps'.map (fun q => q.2) := by
                      rw [← prependGap_matches c ps' tail']
                      exact List.mem_map_of_mem _ hp
                    obtain ⟨q, hq, hq2⟩ := List.mem_map.mp hp2
                    rw [← hq2]
                    exact hm q hq
          · obtain ⟨ps', tail', hj, hs, hm⟩ := ih (i + 1) rest (by omega)
            refine ⟨([], u) :: ps', tail', ?_, ?_, ?_⟩
            · simp only [joinPieces, List.nil_append]
              rw [hj, hu]
            · simp only [subNum, hh]
              rw [if_neg hz, htake, hdrop, hs]
              simp [applyPieces]
            · intro p hp
              rcases List.mem_cons.mp hp with hp | hp
              · subst hp; exact hlang
              · exact hm p hp

/-- The decomposition, specialized to `sub`. -/
theorem sub_decomp (r : Regex) (repl : Nat → List Char → List Char) (s : List Char) :
    ∃ ps tail, joinPieces ps tail = s ∧
      sub r repl s = applyPieces repl 0 ps tail ∧
      ∀ p ∈ ps, [] ∈ r.mlist p.2 :=
  subNum_decomp r repl (s.length + 1) 0 s (le_refl _)

/-! ### The pattern table -/

theorem lookup_phone : lookupPattern "phone_number" = some phonePattern := rfl

theorem lookup_credit : lookupPattern "credit_card" = some creditCardPattern := rfl

theorem lookup_email : lookupPattern "email" = some emailPattern := rfl

theorem lookup_ip : lookupPattern "ip_address" = some ipPattern := rfl

theorem scramble_step_phone (gen : String → Nat → Option (List Char)) (t : List Char) :
    scramble_step gen t "phone_number" = replace_pattern gen t phonePattern "phone_number" := by
  unfold scramble_step
  rw [lookup_phone]

theorem scramble_step_credit (gen : String → Nat → Option (List Char)) (t : List Char) :
    scramble_step gen t "credit_card" = replace_pattern gen t creditCardPattern "credit_card" := by
  unfold scramble_step
  rw [lookup_credit]

theorem scramble_step_email (gen : String → Nat → Option (List Char)) (t : List Char) :
    scramble_step gen t "email" = replace_pattern gen t emailPattern "email" := by
  unfold scramble_step
  rw [lookup_email]

theorem scramble_step_ip (gen : String → Nat → Option (List Char)) (t : List Char) :
    scramble_step gen t "ip_address" = replace_pattern gen t ipPattern "ip_address" := by
  unfold scramble_step
  rw [lookup_ip]

/-- Any successful lookup yields one of the four built-in patterns. -/
theorem lookup_cases {name : String} {r : Regex} (h : lookupPattern name = some r) :
    r = phonePattern ∨ r = creditCardPattern ∨ r = emailPattern ∨ r = ipPattern := by
  obtain ⟨p, hp, hp2⟩ := Option.map_eq_some'.mp h
  have hmem := List.mem_of_find?_eq_some hp
  simp only [patternsList, List.mem_cons, List.mem_singleton] at hmem
  rcases hmem with h' | h' | h' | h' | h'
  · subst h'; exact Or.inl hp2.symm
  · subst h'; exact Or.inr (Or.inl hp2.symm)
  · subst h'; exact Or.inr (Or.inr (Or.inl hp2.symm))
  · subst h'; exact Or.inr (Or.inr (Or.inr hp2.symm))
  · simp at h'

/-- None of the four built-in patterns matches the empty string. -/
theorem lookup_mlist_nil {name : String} {r : Regex} (h : lookupPattern name = some r) :
    r.mlist [] = [] := by
  rcases lookup_cases h with h' | h' | h' | h' <;> subst h' <;> rfl

/-- `re.sub` on the empty string with a pattern that cannot match it. -/
theorem sub_nil {r : Regex} (repl : Nat → List Char → List Char)
    (h : r.mlist [] = []) : sub r repl [] = [] := by
  simp [sub, subNum, h]

/-! ### Facts about matches of single characters, used for digit runs -/

theorem lang_eps : [] ∈ Regex.eps.mlist ([] : List Char) := by
  simp [Regex.mlist]

theorem lang_digit {c : Char} (h : c.isDigit = true) : [] ∈ digit.mlist [c] := by
  simp [digit, Regex.mlist, h]

theorem lang_optLazy (r : Regex) : [] ∈ (optLazy r).mlist [] := by
  simp [optLazy, Regex.mlist]

/-- The scramble loop never turns the empty string into anything else. -/
theorem foldl_nil_text (gen : String → Nat → Option (List Char)) :
    ∀ names : List String, names.foldl (scramble_step gen) [] = [] := by
  intro names
  induction names with
  | nil => rfl
  | cons n ns ih =>
      have hstep : scramble_step gen [] n = [] := by
        unfold scramble_step
        cases hl : lookupPattern n with
        | none => rfl
        | some rg => exact sub_nil _ (lookup_mlist_nil hl)
      simp only [List.foldl_cons, hstep]
      exact ih

/-- Unknown names act as identity steps, so they can be filtered out of
the category list without changing the result. -/
theorem foldl_filter_known (gen : String → Nat → Option (List Char)) :
    ∀ (names : List String) (T : List Char),
      names.foldl (scramble_step gen) T =
        (names.filter (fun n => (lookupPattern n).isSome)).foldl (scramble_step gen) T := by
  intro names
  induction names with
  | nil => intro T; rfl
  | cons n ns ih =>
      intro T
      cases hl : lookupPattern n with
      | none =>
          have hstep : scramble_step gen T n = T := by
            unfold scramble_step
            rw [hl]
          simp only [List.foldl_cons, hstep, List.filter_cons, hl, Option.isSome_none]
          exact ih T
      | some rg =>
          have : (lookupPattern n).isSome = true := by rw [hl]; rfl
          simp only [List.foldl_cons, List.filter_cons, this]
          exact ih (scramble_step gen T n)

/-! ### The claims -/

/-- Claim C1: a single category pass substitutes only spans that match
the category's pattern: the input text decomposes into alternating
untouched gaps and matched spans, taken left to right and
non-overlapping, the output is the same sequence of gaps — in order,
without duplication — with each matched span replaced, and every
replaced span matches the pattern; consequently, if no substring of
the text matches any pattern of a valid category of the request,
`scramble_text` returns the text unchanged. -/
theorem C1_replacement_preserves_gaps (r : Regex)
    (repl : Nat → List Char → List Char) (T : List Char) :
    (∃ ps tail, joinPieces ps tail = T ∧
      sub r repl T = applyPieces repl 0 ps tail ∧
      ∀ p ∈ ps, [] ∈ r.mlist p.2) ∧
    ∀ (gen : String → Nat → Option (List Char)) (names : Option (List String)),
      (∀ u, u <:+: T → ∀ n ∈ names.getD patternsKeys,
        ∀ rg, lookupPattern n = some rg → [] ∈ rg.mlist u → False) →
      scramble_text gen T names = T := by
  constructor
  · exact sub_decomp r repl T
  · intro gen names h
    show (names.getD patternsKeys).foldl (scramble_step gen) T = T
    apply foldl_no_match
    intro n hn rg hrg
    cases hval : hasMatch rg T with
    | false => rfl
    | true =>
        obtain ⟨u, hinf, hl⟩ := (hasMatch_iff rg T).mp hval
        exact absurd (h u hinf n hn rg hrg hl) (by simp)

theorem C1_witness :
    scramble_text (fun _ _ => none) ("zz".toList) none = "zz".toList := by
  apply (C1_replacement_preserves_gaps Regex.eps (fun _ m => m) ("zz".toList)).2
  intro u hinf n _ rg hrg hl
  have ht : hasMatch rg ("zz".toList) = true := (hasMatch_iff rg _).mpr ⟨u, hinf, hl⟩
  rcases lookup_cases hrg with h' | h' | h' | h' <;> subst h' <;> exact absurd ht (by decide)

/-- Claim C2: `scramble_text` is a total function on strings — the
model returns a string for every input and category list; the empty
input yields the empty output for every category list, and text in
which no valid category's pattern matches passes through unchanged. -/
theorem C2_total_empty_and_passthrough (gen : String → Nat → Option (List Char))
    (names : Option (List String)) :
    scramble_text gen [] names = [] ∧
    ∀ T : List Char,
      (∀ n rg, lookupPattern n = some rg → hasMatch rg T = false) →
      scramble_text gen T names = T := by
  constructor
  · exact foldl_nil_text gen _
  · intro T h
    show (names.getD patternsKeys).foldl (scramble_step gen) T = T
    exact foldl_no_match gen _ T (fun n _ rg hrg => h n rg hrg)

theorem C2_witness :
    scramble_text (fun _ _ => none) ("zz".toList) none = "zz".toList ∧
    scramble_text (fun _ _ => none) [] none = [] := by
  constructor
  · apply (C2_total_empty_and_passthrough (fun _ _ => none) none).2
    intro n rg hrg
    rcases lookup_cases hrg with h' | h' | h' | h' <;> subst h' <;> rfl
  · exact (C2_total_empty_and_passthrough (fun _ _ => none) none).1

/-- Claim C3: an unknown category name (such as `"ssn"`) raises no
error and changes no text — the step for it is the identity, so the
result is the same as with unknown names removed from the list, and
the valid categories of the same request still apply. -/
theorem C3_unknown_categories_skipped (gen : String → Nat → Option (List Char))
    (T : List Char) :
    (∀ names : List String,
      scramble_text gen T (some names) =
        scramble_text gen T (some (names.filter (fun n => (lookupPattern n).isSome)))) ∧
    ∀ rest : List String,
      scramble_text gen T (some ("ssn" :: rest)) = scramble_text gen T (some rest) := by
  constructor
  · intro names
    exact foldl_filter_known gen names T
  · intro rest
    rfl

/-- Claim C5: with `categories = None` the four categories are applied,
in exactly the fixed order phone_number, credit_card, email,
ip_address; a provided sequence is applied in the provided order. -/
theorem C5_default_categories_fixed_order (gen : String → Nat → Option (List Char))
    (T : List Char) :
    scramble_text gen T none =
      scramble_text gen T (some ["phone_number", "credit_card", "email", "ip_address"]) ∧
    scramble_text gen T none =
      replace_pattern gen (replace_pattern gen (replace_pattern gen
        (replace_pattern gen T phonePattern "phone_number")
        creditCardPattern "credit_card") emailPattern "email") ipPattern "ip_address" ∧
    ∀ names : List String,
      scramble_text gen T (some names) = names.foldl (scramble_step gen) T := by
  refine ⟨rfl, ?_, fun _ => rfl⟩
  show List.foldl (scramble_step gen) T ["phone_number", "credit_card", "email", "ip_address"] = _
  simp only [List.foldl_cons, List.foldl_nil]
  rw [scramble_step_phone, scramble_step_credit, scramble_step_email, scramble_step_ip]

/-- Claim C6: categories apply sequentially, each pattern search
running over the output of the previous categories, not the original
input; concretely, a fake email value consisting of digits creates a
phone_number match that was absent from the original text. -/
theorem C6_sequential_application (gen : String → Nat → Option (List Char)) :
    (∀ (T : List Char) (c : String) (cs : List String),
      scramble_text gen T (some (c :: cs)) =
        scramble_text gen (scramble_text gen T (some [c])) (some cs)) ∧
    hasMatch phonePattern ("a@b.co".toList) = false ∧
    scramble_text
      (fun name _ => if name == "email" then some ("5551234".toList)
        else if name == "phone_number" then some ("X".toList) else none)
      ("a@b.co".toList) (some ["email", "phone_number"]) = "X".toList := by
  exact ⟨fun _ _ _ => rfl, rfl, rfl⟩

/-- Claim C7: the ip_address pattern requires every octet to lie in
0–255, so `"999.999.999.999"` has no substring matched by it
(`hasMatch` is exactly substring matchability), and scrambling that
text with the ip_address category returns it unchanged. -/
theorem C7_out_of_range_ip_not_matched :
    hasMatch ipPattern ("999.999.999.999".toList) = false ∧
    (∀ (r : Regex) (s : List Char),
      hasMatch r s = true ↔ ∃ u, u <:+: s ∧ [] ∈ r.mlist u) ∧
    ∀ gen : String → Nat → Option (List Char),
      scramble_text gen ("999.999.999.999".toList) (some ["ip_address"]) =
        "999.999.999.999".toList := by
  refine ⟨rfl, hasMatch_iff, ?_⟩
  intro gen
  show List.foldl (scramble_step gen) ("999.999.999.999".toList) ["ip_address"] = _
  simp only [List.foldl_cons, List.foldl_nil]
  rw [scramble_step_ip]
  exact sub_no_match _ rfl

theorem C7_witness : hasMatch ipPattern ("1.2.3.4".toList) = true :=
  (C7_out_of_range_ip_not_matched.2.1 ipPattern ("1.2.3.4".toList)).mpr
    ⟨"1.2.3.4".toList, ⟨[], [], by decide⟩, by decide⟩

/-- Claim C8: the phone_number pattern's third alternative
`\d{3}[-\.\s]??\d{4}` matches a bare run of exactly 7 digits, so
`"5551234"` is matched and replaced by the generated value when the
phone_number category is applied. -/
theorem C8_bare_seven_digits_matched :
    ([] ∈ phonePattern.mlist ("5551234".toList)) ∧
    ∀ (gen : String → Nat → Option (List Char)) (v : List Char),
      gen "phone_number" 0 = some v →
      scramble_text gen ("5551234".toList) (some ["phone_number"]) = v := by
  constructor
  · decide
  · intro gen v hv
    have h1 : scramble_text gen ("5551234".toList) (some ["phone_number"]) =
        generate_fake_value gen "phone_number" 0 ("5551234".toList) ++ [] := rfl
    rw [h1]
    simp [generate_fake_value, hv]

theorem C8_witness :
    scramble_text (fun _ _ => some ("X".toList)) ("5551234".toList)
      (some ["phone_number"]) = "X".toList :=
  C8_bare_seven_digits_matched.2 (fun _ _ => some ("X".toList)) ("X".toList) rfl

/-- Claim C4: one category pass decomposes the text into gaps and
matched spans and replaces each match through `generate_fake_value`,
which returns the original matched substring whenever the provider
call for that match fails (`gen name i = none`); so a failed match
keeps its original text in place while the remaining matches are
still processed. -/
theorem C4_generator_failure_keeps_match (gen : String → Nat → Option (List Char))
    (name : String) (r : Regex) (T : List Char) :
    (∃ ps tail, joinPieces ps tail = T ∧
      replace_pattern gen T r name =
        applyPieces (generate_fake_value gen name) 0 ps tail ∧
      ∀ p ∈ ps, [] ∈ r.mlist p.2) ∧
    ∀ (i : Nat) (m : List Char),
      gen name i = none → generate_fake_value gen name i m = m := by
  constructor
  · exact sub_decomp r (generate_fake_value gen name) T
  · intro i m h
    simp [generate_fake_value, h]

theorem C4_witness :
    generate_fake_value (fun _ _ => none) "phone_number" 0 ("5551234".toList) =
      "5551234".toList :=
  (C4_generator_failure_keeps_match (fun _ _ => none) "phone_number" phonePattern
    ("5551234".toList)).2 0 ("5551234".toList) rfl

/-- Claim C9: the phone_number pattern matches any run of 10
consecutive digits (both lazy separators match empty), so on the bare
16-digit card number `"4111111111111111"` the phone_number pass
replaces the first 10 digits, leaving `"111111"`; with the default
category order the credit_card pass therefore runs on the already
mangled text, never on the intact original number. -/
theorem C9_phone_consumes_card_digits :
    (∀ a b c d e f g h i j : Char,
      a.isDigit = true → b.isDigit = true → c.isDigit = true → d.isDigit = true →
      e.isDigit = true → f.isDigit = true → g.isDigit = true → h.isDigit = true →
      i.isDigit = true → j.isDigit = true →
      [] ∈ phonePattern.mlist [a, b, c, d, e, f, g, h, i, j]) ∧
    ∀ (gen : String → Nat → Option (List Char)) (v : List Char),
      gen "phone_number" 0 = some v →
      scramble_text gen ("4111111111111111".toList) (some ["phone_number"]) =
        v ++ "111111".toList ∧
      scramble_text gen ("4111111111111111".toList) none =
        scramble_text gen (v ++ "111111".toList)
          (some ["credit_card", "email", "ip_address"]) := by
  constructor
  · intro a b c d e f g h i j ha hb hc hd he hf hg hh hi hj
    have h3a : [] ∈ (rep digit 3).mlist [a, b, c] :=
      lang_cat (lang_digit ha) (lang_cat (lang_digit hb)
        (lang_cat (lang_digit hc) lang_eps))
    have h3b : [] ∈ (rep digit 3).mlist [d, e, f] :=
      lang_cat (lang_digit hd) (lang_cat (lang_digit he)
        (lang_cat (lang_digit hf) lang_eps))
    have h4 : [] ∈ (rep digit 4).mlist [g, h, i, j] :=
      lang_cat (lang_digit hg) (lang_cat (lang_digit hh)
        (lang_cat (lang_digit hi) (lang_cat (lang_digit hj) lang_eps)))
    have halt : [] ∈ phoneAlt1.mlist [a, b, c, d, e, f, g, h, i, j] :=
      lang_cat h3a (lang_cat (lang_optLazy sepCls)
        (lang_cat h3b (lang_cat (lang_optLazy sepCls) h4)))
    simp only [phonePattern, Regex.mlist, List.mem_append]
    exact Or.inl halt
  · intro gen v hv
    have hphone : scramble_text gen ("4111111111111111".toList) (some ["phone_number"]) =
        generate_fake_value gen "phone_number" 0 ("4111111111".toList) ++
          "111111".toList := rfl
    constructor
    · rw [hphone]
      simp [generate_fake_value, hv]
    · have h3 : scramble_step gen ("4111111111111111".toList) "phone_number" =
          v ++ "111111".toList := by
        rw [scramble_step_phone]
        have h4 : replace_pattern gen ("4111111111111111".toList) phonePattern
            "phone_number" =
            generate_fake_value gen "phone_number" 0 ("4111111111".toList) ++
              "111111".toList := rfl
        rw [h4]
        simp [generate_fake_value, hv]
      simp only [scramble_text, Option.getD_none, Option.getD_some]
      rw [show patternsKeys = ["phone_number", "credit_card", "email", "ip_address"] from rfl]
      simp only [List.foldl_cons, List.foldl_nil]
      rw [h3]

theorem C9_witness :
    ([] ∈ phonePattern.mlist ("0123456789".toList)) ∧
    scramble_text (fun _ _ => some ("P".toList)) ("4111111111111111".toList)
      (some ["phone_number"]) = "P".toList ++ "111111".toList :=
  ⟨C9_phone_consumes_card_digits.1 '0' '1' '2' '3' '4' '5' '6' '7' '8' '9'
      rfl rfl rfl rfl rfl rfl rfl rfl rfl rfl,
    ((C9_phone_consumes_card_digits.2 (fun _ _ => some ("P".toList))
      ("P".toList) rfl)).1⟩

/-- Claim C10: an explicitly empty category list applies no categories
and returns the input unchanged; only `None` selects the default of
all four categories, because the default is chosen by the
`pattern_names is None` test, not by emptiness. -/
theorem C10_empty_list_is_identity (gen : String → Nat → Option (List Char))
    (T : List Char) :
    scramble_text gen T (some []) = T ∧
    scramble_text gen T none =
      scramble_text gen T (some ["phone_number", "credit_card", "email", "ip_address"]) :=
  ⟨rfl, rfl⟩

end Scrambler

